import Mathlib

set_option maxHeartbeats 1000000

/-!
Shallow embedding of the core stream-processing code of the `in-d-gestion`
repository: the event idifier (`lib/*/idify`), the carelink temp-basal joiner
(`lib/carelink/basals/tempBasalJoin.js`), and the rx operator extensions
(`readline`, `splitMerge`).  Definitions are translated from the JavaScript
source; the SHA-1/base-32 digest used by the idifier lives in external
libraries (`crypto`, `amoeba.base32hex`) and is therefore a parameter of the
embedding.
-/

/-- JavaScript values as they occur in the event records handled by this code.
`vnull` stands for both `null` and `undefined` (an absent property): the
source only ever distinguishes them from real values with `== null` and
strict comparisons against string/number literals, which identify the two. -/
inductive JVal where
  | vnull : JVal
  | vstr : String → JVal
  | vnum : Int → JVal
deriving DecidableEq, Repr

/-- JavaScript `String(v)` for the values of `JVal` (only ever applied to
non-null values in the source, via the null check in `buildHasher`). -/
def jstring : JVal → String
  | .vnull => "null"
  | .vstr s => s
  | .vnum n => toString n

/-- An event record: an open JavaScript object restricted to the properties
this code reads or writes.  A property that is absent on a concrete event is
`JVal.vnull` (see `JVal`). -/
structure Event where
  type : JVal
  subType : JVal
  deliveryType : JVal
  deviceId : JVal
  ts : JVal
  deviceTime : JVal
  source : JVal
  duration : JVal
  id : JVal
  tempId : JVal
deriving DecidableEq, Repr

/-- The event with every property absent (`{}`). -/
def Event.empty : Event :=
  ⟨.vnull, .vnull, .vnull, .vnull, .vnull, .vnull, .vnull, .vnull, .vnull, .vnull⟩

/-- Dynamic property read `e[field]` for the property names this code uses;
any other name is an absent property. -/
def getField (e : Event) (f : String) : JVal :=
  if f = "type" then e.type
  else if f = "subType" then e.subType
  else if f = "deliveryType" then e.deliveryType
  else if f = "deviceId" then e.deviceId
  else if f = "ts" then e.ts
  else if f = "deviceTime" then e.deviceTime
  else if f = "source" then e.source
  else if f = "duration" then e.duration
  else if f = "id" then e.id
  else if f = "tempId" then e.tempId
  else .vnull

/-- The errors thrown by the idifier (`except.ISE(...)` in the source):
`Unknown event type[%s] for idification. ts[%s]` and
`Unable to make id for event type[%s], no field[%s]`. -/
inductive IdErr where
  | unknownType : JVal → JVal → IdErr
  | missingField : JVal → String → IdErr
deriving DecidableEq, Repr

/-- The getters built by `buildHasher`: read each recipe field in order,
throwing on the first `== null` one (`getters.map` evaluates left to right,
so the first missing field aborts before any later getter runs). -/
def getterVals (e : Event) : List String → Except IdErr (List JVal)
  | [] => .ok []
  | f :: fs =>
    match getField e f with
    | .vnull => .error (.missingField e.type f)
    | v =>
      match getterVals e fs with
      | .error err => .error err
      | .ok vs => .ok (v :: vs)

/-- `hashVals`: the SHA-1 hasher is updated with `String(vals[i])` for each
value in order and the digest is base-32 encoded; incrementally hashing the
pieces equals hashing their concatenation, so the external
`base32hex.encodeBuffer ∘ sha1` pipeline is the parameter `digest` applied to
the concatenation of the string forms. -/
def hashVals (digest : String → String) (vals : List JVal) : String :=
  digest (String.join (vals.map jstring))

/-- The `idifiers` recipe table, keyed by `e.type`.  The JavaScript lookup
`idifiers[e.type]` coerces the key to a string; a non-string `type` can never
stringify to one of the seven registered keys, so only string types match. -/
def idifiers (ty : JVal) : Option (List String) :=
  match ty with
  | .vstr "basal" => some ["type", "deliveryType", "deviceId", "ts"]
  | .vstr "bolus" => some ["type", "subType", "deviceId", "ts"]
  | .vstr "cbg" => some ["type", "deviceId", "ts"]
  | .vstr "deviceMeta" => some ["type", "subType", "ts"]
  | .vstr "smbg" => some ["type", "deviceId", "ts"]
  | .vstr "settings" => some ["type", "deviceId", "ts"]
  | .vstr "wizard" => some ["type", "deviceId", "ts"]
  | _ => none

/-- The idifier (`module.exports` of the idify module): if `e.id == null`,
look up the recipe for `e.type` (unknown type throws), evaluate the getters
(missing field throws), and assign the encoded digest to `e.id`; an event
whose `id` is already set is returned unchanged. -/
def idify (digest : String → String) (e : Event) : Except IdErr Event :=
  if e.id = .vnull then
    match idifiers e.type with
    | none => .error (.unknownType e.type e.ts)
    | some fields =>
      match getterVals e fields with
      | .error err => .error err
      | .ok vals => .ok { e with id := .vstr (hashVals digest vals) }
  else
    .ok e

/-- The id an `idify` result carries (`vnull` when idification failed). -/
def idOf (r : Except IdErr Event) : JVal :=
  match r with
  | .ok e => e.id
  | .error _ => .vnull

/-- The guard of the joiner: `e.type === 'basal' && e.deliveryType === 'temp'`. -/
def isTempBasal (e : Event) : Bool :=
  e.type == .vstr "basal" && e.deliveryType == .vstr "temp"

/-- The event synthesized by the joiner for a stop:
`_.assign(_.pick(e, 'type', 'deviceTime', 'deviceId', 'source'),
{deliveryType: 'temp-stop', tempId: theTemp.id})` — a fresh object carrying
only those picked and assigned properties. -/
def mkTempStop (e theTemp : Event) : Event :=
  { Event.empty with
    type := e.type,
    deviceTime := e.deviceTime,
    deviceId := e.deviceId,
    source := e.source,
    deliveryType := .vstr "temp-stop",
    tempId := theTemp.id }

/-- One step of the `keep` function inside `tempBasalJoin.js`.  The state is
the captured `currTemp` variable (`none` = idle); the second component is the
returned value, where `none` is the `null` that `keep` filters out of the
stream. -/
def tempBasalStep (currTemp : Option Event) (e : Event) :
    Option Event × Option Event :=
  if isTempBasal e then
    if e.duration == .vnum 0 then
      match currTemp with
      | none => (none, none)
      | some theTemp => (none, some (mkTempStop e theTemp))
    else (some e, some e)
  else (currTemp, some e)

/-- One step of the carelink pipeline fragment `apply(tempBasalJoin)`
followed by `map(idify)`, composed per event.  JavaScript `idify` mutates
its argument in place, and in the temp-start branch the joiner's remembered
`currTemp` is the very object it just emitted, so the id assigned by the
downstream `idify` is visible through `currTemp` when the matching stop
arrives: the composition therefore stores the idified event as the new
`currTemp`.  The other branches never alias the stored event. -/
def joinIdifyStep (digest : String → String) (currTemp : Option Event)
    (e : Event) : Except IdErr (Option Event × Option Event) :=
  if isTempBasal e then
    if e.duration == .vnum 0 then
      match currTemp with
      | none => .ok (none, none)
      | some theTemp =>
        match idify digest (mkTempStop e theTemp) with
        | .error err => .error err
        | .ok s => .ok (none, some s)
    else
      match idify digest e with
      | .error err => .error err
      | .ok e2 => .ok (some e2, some e2)
  else
    match idify digest e with
    | .error err => .error err
    | .ok e2 => .ok (currTemp, some e2)

/-- Run of the composed joiner-then-idify pipeline over an event list: the
events emitted before the first thrown error, together with that error
(`none` when the whole input is processed). -/
def joinIdifyTrace (digest : String → String) (currTemp : Option Event) :
    List Event → List Event × Option IdErr
  | [] => ([], none)
  | e :: rest =>
    match joinIdifyStep digest currTemp e with
    | .error err => ([], some err)
    | .ok (c2, out) =>
      let r := joinIdifyTrace digest c2 rest
      (out.toList ++ r.1, r.2)

/-- The first raw event of the end-to-end scenario:
`{type:'basal', deliveryType:'temp', deviceId:'d1', ts:100, duration:30}`. -/
def tempStartRaw : Event :=
  { Event.empty with
    type := .vstr "basal",
    deliveryType := .vstr "temp",
    deviceId := .vstr "d1",
    ts := .vnum 100,
    duration := .vnum 30 }

/-- The second raw event of the end-to-end scenario:
`{type:'basal', deliveryType:'temp', deviceId:'d1', ts:200, duration:0}`. -/
def tempStopRaw : Event :=
  { Event.empty with
    type := .vstr "basal",
    deliveryType := .vstr "temp",
    deviceId := .vstr "d1",
    ts := .vnum 200,
    duration := .vnum 0 }

/-- JavaScript `bufferedString.split('\n')` on the character-list embedding
of JS strings, packaged as the pair (all splits but the last, last split):
`.1` are the complete lines (without their terminator) and `.2` is the
final, possibly empty, fragment after the last line-feed. -/
def splitLines : List Char → List (List Char) × List Char
  | [] => ([], [])
  | c :: rest =>
    if c = '\n' then
      ([] :: (splitLines rest).1, (splitLines rest).2)
    else
      match splitLines rest with
      | ([], rem) => ([], c :: rem)
      | (l :: ls, rem) => ((c :: l) :: ls, rem)

/-- One `onNext` of the `readline` observer: append the chunk to the buffer,
split on line-feeds, emit every complete line with its trailing line-feed
restored (`splits[i] + '\n'` for `i < splits.length - 1`), and retain the
final split as the new buffer. -/
def readlineNext (buf chunk : List Char) : List Char × List (List Char) :=
  ((splitLines (buf ++ chunk)).2,
   (splitLines (buf ++ chunk)).1.map (fun l => l ++ ['\n']))

/-- The subscription state of `readline` over a whole upstream: fold
`readlineNext` from the empty buffer, accumulating the emitted elements. -/
def readlineFold (chunks : List (List Char)) : List Char × List (List Char) :=
  chunks.foldl
    (fun acc c => ((readlineNext acc.1 c).1, acc.2 ++ (readlineNext acc.1 c).2))
    ([], [])

/-- Everything `readline` emits for a chunked upstream that completes: the
per-chunk emissions followed by the remaining buffer, emitted verbatim by
the `onCompleted` handler before completion is signalled. -/
def readlineRun (chunks : List (List Char)) : List (List Char) :=
  (readlineFold chunks).2 ++ [(readlineFold chunks).1]

/-- Concatenation of a list of chunks (the byte stream the chunks carry). -/
def catAll : List (List Char) → List Char
  | [] => []
  | c :: cs => c ++ catAll cs

/-- Concatenation of lines, each terminated by a line-feed. -/
def catLines : List (List Char) → List Char
  | [] => []
  | l :: ls => l ++ '\n' :: catLines ls

/-- The signals the splitMerge router delivers to the merged output
observer (`observer.onNext` / `observer.onCompleted`); a thrown routing
error is modelled by `Except.error` in the run functions below. -/
inductive OutSig where
  | next : Event → OutSig
  | completed : OutSig
deriving DecidableEq, Repr

/-- A handler's output stream, modelled as a synchronous transducer over its
flow: `subOut` and `subDone` are the elements emitted and the completion
signalled synchronously while `handlers(key, flow)` is being subscribed
(before any event has reached the flow); `step` consumes one flow event and
returns the new handler state, the elements emitted, and whether the output
stream completes; `flush` is what the output emits when the flow itself
completes, after which the output completes. -/
structure HandlerB where
  init : Nat
  subOut : List Event
  subDone : Bool
  step : Nat → Event → Nat × List Event × Bool
  flush : Nat → List Event

/-- One entry of the router's `flows` object: the key, the transducer and
state of the handler output subscribed on this flow, and whether that output
has already completed (a stopped Rx observer ignores further deliveries). -/
structure FlowEntry where
  key : String
  hb : HandlerB
  hstate : Nat
  closed : Bool

/-- The completion callback subscribed on a key's handler output:
`delete flows[theKey]`, and if the table is now empty,
`observer.onCompleted()` — with no check of upstream state. -/
def completeFlow (flows : List FlowEntry) (key : String) : List FlowEntry × List OutSig :=
  ((flows.filter (fun f => f.key != key)),
   if (flows.filter (fun f => f.key != key)).isEmpty then [.completed] else [])

/-- `flow.onNext(e)`: deliver an event pushed into a key's subject to the
handler output subscription.  A completed (closed) subscription ignores it;
otherwise the handler emits its step outputs, and if its output completes
the completion callback removes the entry (completing the merged output if
the table emptied). -/
def pushEvent (flows : List FlowEntry) (key : String) (e : Event) :
    List FlowEntry × List OutSig :=
  match flows.find? (fun f => f.key == key) with
  | none => (flows, [])
  | some f =>
    if f.closed then (flows, [])
    else if (f.hb.step f.hstate e).2.2 then
      ((completeFlow flows key).1,
       ((f.hb.step f.hstate e).2.1).map OutSig.next ++ (completeFlow flows key).2)
    else
      (flows.map (fun g =>
        if g.key == key then
          { g with hstate := (f.hb.step f.hstate e).1 }
        else g),
       ((f.hb.step f.hstate e).2.1).map OutSig.next)

/-- The router observer's `onNext`: compute the key; if a flow exists, push
the event into it; otherwise call `handlers(key, flow)` (recording the
invocation in the third component), deliver its subscribe-time output and —
if it completes during subscribe — run the completion callback against the
current table (the entry is stored only afterwards, mirroring the source's
`flows[key] = flow` after `subscribe`), then push the event.  A `none`
handler is the mapping-form lookup miss: `throw new Error('Unknown
key[' + key + '].')`. -/
def routeEvent (sel : Event → String) (handlers : String → Option HandlerB)
    (flows : List FlowEntry) (e : Event) :
    Except String (List FlowEntry × List OutSig × List String) :=
  match flows.find? (fun f => f.key == sel e) with
  | some _ =>
    .ok ((pushEvent flows (sel e) e).1, (pushEvent flows (sel e) e).2, [])
  | none =>
    match handlers (sel e) with
    | none => .error ("Unknown key[" ++ sel e ++ "].")
    | some hb =>
      .ok (((pushEvent ((if hb.subDone then completeFlow flows (sel e) else (flows, [])).1 ++
              [⟨sel e, hb, hb.init, hb.subDone⟩]) (sel e) e).1),
           hb.subOut.map OutSig.next ++
             (if hb.subDone then completeFlow flows (sel e) else (flows, [])).2 ++
             (pushEvent ((if hb.subDone then completeFlow flows (sel e) else (flows, [])).1 ++
               [⟨sel e, hb, hb.init, hb.subDone⟩]) (sel e) e).2,
           [sel e])

/-- Routing a sequence of upstream events; a thrown error aborts the run
(no further events are processed).  Returns the final flow table, the
signals delivered to the merged output, and the handler invocations made
(as the list of keys, in order). -/
def runEvents (sel : Event → String) (handlers : String → Option HandlerB)
    (flows : List FlowEntry) :
    List Event → Except String (List FlowEntry × List OutSig × List String)
  | [] => .ok (flows, [], [])
  | e :: rest =>
    match routeEvent sel handlers flows e with
    | .error m => .error m
    | .ok (flows2, sigs, inv) =>
      match runEvents sel handlers flows2 rest with
      | .error m => .error m
      | .ok (flows3, sigs2, inv2) => .ok (flows3, sigs ++ sigs2, inv ++ inv2)

/-- The `flowKeys.forEach(key => flows[key].onCompleted())` loop of the
router's `onCompleted`: completing a flow delivers completion to its handler
output — ignored if that output is already stopped, otherwise it emits its
final elements and completes, removing the entry and completing the merged
output if the table emptied. -/
def flushFlows (flows : List FlowEntry) : List String → List FlowEntry × List OutSig
  | [] => (flows, [])
  | k :: ks =>
    match flows.find? (fun f => f.key == k) with
    | none => flushFlows flows ks
    | some f =>
      if f.closed then flushFlows flows ks
      else
        ((flushFlows (completeFlow flows k).1 ks).1,
         (f.hb.flush f.hstate).map OutSig.next ++ (completeFlow flows k).2 ++
           (flushFlows (completeFlow flows k).1 ks).2)

/-- The router observer's `onCompleted`: with no open flows complete the
merged output immediately, otherwise complete every flow captured in
`Object.keys(flows)`. -/
def completeUpstream (flows : List FlowEntry) : List OutSig :=
  if flows.isEmpty then [.completed]
  else (flushFlows flows (flows.map (fun f => f.key))).2

/-- The signals the merged output receives while the upstream is still live:
those produced by routing `evs` alone, with function-form handlers (which
exist for every key). -/
def smEventSigs (sel : Event → String) (h : String → HandlerB)
    (evs : List Event) : List OutSig :=
  match runEvents sel (fun k => some (h k)) [] evs with
  | .ok r => r.2.1
  | .error _ => []

/-- The handler invocations (keys, in order) a splitMerge instance makes
while routing `evs`. -/
def smInvocations (sel : Event → String) (h : String → HandlerB)
    (evs : List Event) : List String :=
  match runEvents sel (fun k => some (h k)) [] evs with
  | .ok r => r.2.2
  | .error _ => []

/-- The signals the merged output receives over a whole run: routing `evs`
and then the upstream completing. -/
def smFullSigs (sel : Event → String) (h : String → HandlerB)
    (evs : List Event) : List OutSig :=
  match runEvents sel (fun k => some (h k)) [] evs with
  | .ok r => r.2.1 ++ completeUpstream r.1
  | .error _ => []

/-- The mapping form of `handlers`: an object of key → handler lookups,
`none` for an unregistered key. -/
def mappingHandlers (table : List (String × HandlerB)) :
    String → Option HandlerB :=
  fun k => (table.find? (fun p => p.1 == k)).map (fun p => p.2)

/-- A handler whose output stream completes only in response to its flow
completing — it neither completes at subscribe time nor after consuming an
event.  The identity handlers of the specification's scenario are of this
shape. -/
def flowDriven (hb : HandlerB) : Prop :=
  hb.subDone = false ∧ ∀ s e, (hb.step s e).2.2 = false

/-- The identity handler `function (key, observable) { return observable; }`:
its output is the flow itself. -/
def idHandler : HandlerB :=
  ⟨0, [], false, fun s e => (s, [e], false), fun _ => []⟩

/-- A `take(1)`-shaped handler: its output emits the first flow event and
then completes, before the flow itself completes. -/
def take1Handler : HandlerB :=
  ⟨0, [], false, fun s e => (s, [e], true), fun _ => []⟩

lemma getterVals_ok (e : Event) (fs : List String)
    (h : ∀ f ∈ fs, getField e f ≠ .vnull) :
    getterVals e fs = .ok (fs.map (getField e)) := by
  induction fs with
  | nil => rfl
  | cons f fs ih =>
    have hf := h f (by simp)
    have hrest := ih (fun g hg => h g (by simp [hg]))
    cases hg : getField e f with
    | vnull => exact absurd hg hf
    | vstr s => simp [getterVals, hg, hrest]
    | vnum n => simp [getterVals, hg, hrest]

lemma getterVals_missing (e : Event) (pre : List String) (f : String)
    (post : List String) (hpre : ∀ g ∈ pre, getField e g ≠ .vnull)
    (hf : getField e f = .vnull) :
    getterVals e (pre ++ f :: post) = .error (.missingField e.type f) := by
  induction pre with
  | nil => simp [getterVals, hf]
  | cons g gs ih =>
    have hg := hpre g (by simp)
    have hrest := ih (fun x hx => hpre x (by simp [hx]))
    cases hgv : getField e g with
    | vnull => exact absurd hgv hg
    | vstr s => simp [getterVals, hgv, hrest]
    | vnum n => simp [getterVals, hgv, hrest]

lemma idify_recipe_eq (digest : String → String) (e : Event)
    (fields : List String) (hid : e.id = .vnull)
    (hrec : idifiers e.type = some fields)
    (hf : ∀ f ∈ fields, getField e f ≠ .vnull) :
    idify digest e =
      .ok { e with id := .vstr (hashVals digest (fields.map (getField e))) } := by
  simp [idify, hid, hrec, getterVals_ok e fields hf]

/-- C2 counterexample: on a `wizard` event with `id` unset, distinct
`subType` (`SUB`) and `deviceId` (`DEV`), and `ts = 7`, the id is computed
from (type, deviceId, ts) — with the identity digest it is `wizardDEV7`,
not the `wizardSUB7` that the claimed (type, subType, ts) recipe would
produce. -/
theorem idify_wizard_counterexample :
    idOf (idify (fun s => s)
      { Event.empty with
        type := .vstr "wizard",
        subType := .vstr "SUB",
        deviceId := .vstr "DEV",
        ts := .vnum 7 }) = .vstr "wizardDEV7" ∧
    JVal.vstr "wizardDEV7" ≠ .vstr "wizardSUB7" := by
  decide

/-- C2 (amended): for every event without a pre-existing id, `idify` computes
the id by concatenating the string forms of the recipe fields in recipe order
and digesting (hash + base-32 encoding, the `digest` parameter); the recipes
are basal → (type, deliveryType, deviceId, ts), bolus → (type, subType,
deviceId, ts), cbg, smbg, settings → (type, deviceId, ts), deviceMeta →
(type, subType, ts), and wizard → (type, deviceId, ts). -/
theorem idify_recipes (digest : String → String) (e : Event)
    (hid : e.id = .vnull) :
    (e.type = .vstr "basal" → e.deliveryType ≠ .vnull → e.deviceId ≠ .vnull →
      e.ts ≠ .vnull → idify digest e = .ok { e with
        id := .vstr (hashVals digest [e.type, e.deliveryType, e.deviceId, e.ts]) }) ∧
    (e.type = .vstr "bolus" → e.subType ≠ .vnull → e.deviceId ≠ .vnull →
      e.ts ≠ .vnull → idify digest e = .ok { e with
        id := .vstr (hashVals digest [e.type, e.subType, e.deviceId, e.ts]) }) ∧
    (e.type = .vstr "cbg" → e.deviceId ≠ .vnull → e.ts ≠ .vnull →
      idify digest e = .ok { e with
        id := .vstr (hashVals digest [e.type, e.deviceId, e.ts]) }) ∧
    (e.type = .vstr "deviceMeta" → e.subType ≠ .vnull → e.ts ≠ .vnull →
      idify digest e = .ok { e with
        id := .vstr (hashVals digest [e.type, e.subType, e.ts]) }) ∧
    (e.type = .vstr "smbg" → e.deviceId ≠ .vnull → e.ts ≠ .vnull →
      idify digest e = .ok { e with
        id := .vstr (hashVals digest [e.type, e.deviceId, e.ts]) }) ∧
    (e.type = .vstr "settings" → e.deviceId ≠ .vnull → e.ts ≠ .vnull →
      idify digest e = .ok { e with
        id := .vstr (hashVals digest [e.type, e.deviceId, e.ts]) }) ∧
    (e.type = .vstr "wizard" → e.deviceId ≠ .vnull → e.ts ≠ .vnull →
      idify digest e = .ok { e with
        id := .vstr (hashVals digest [e.type, e.deviceId, e.ts]) }) := by
  refine ⟨?_, ?_, ?_, ?_, ?_, ?_, ?_⟩
  · intro hty h1 h2 h3
    rw [idify_recipe_eq digest e ["type", "deliveryType", "deviceId", "ts"] hid
      (by rw [hty]; rfl) ?_]
    · simp [getField]
    · intro f hf
      simp only [List.mem_cons, List.not_mem_nil, or_false] at hf
      rcases hf with rfl | rfl | rfl | rfl <;> simp [getField, hty, h1, h2, h3]
  · intro hty h1 h2 h3
    rw [idify_recipe_eq digest e ["type", "subType", "deviceId", "ts"] hid
      (by rw [hty]; rfl) ?_]
    · simp [getField]
    · intro f hf
      simp only [List.mem_cons, List.not_mem_nil, or_false] at hf
      rcases hf with rfl | rfl | rfl | rfl <;> simp [getField, hty, h1, h2, h3]
  · intro hty h1 h2
    rw [idify_recipe_eq digest e ["type", "deviceId", "ts"] hid
      (by rw [hty]; rfl) ?_]
    · simp [getField]
    · intro f hf
      simp only [List.mem_cons, List.not_mem_nil, or_false] at hf
      rcases hf with rfl | rfl | rfl <;> simp [getField, hty, h1, h2]
  · intro hty h1 h2
    rw [idify_recipe_eq digest e ["type", "subType", "ts"] hid
      (by rw [hty]; rfl) ?_]
    · simp [getField]
    · intro f hf
      simp only [List.mem_cons, List.not_mem_nil, or_false] at hf
      rcases hf with rfl | rfl | rfl <;> simp [getField, hty, h1, h2]
  · intro hty h1 h2
    rw [idify_recipe_eq digest e ["type", "deviceId", "ts"] hid
      (by rw [hty]; rfl) ?_]
    · simp [getField]
    · intro f hf
      simp only [List.mem_cons, List.not_mem_nil, or_false] at hf
      rcases hf with rfl | rfl | rfl <;> simp [getField, hty, h1, h2]
  · intro hty h1 h2
    rw [idify_recipe_eq digest e ["type", "deviceId", "ts"] hid
      (by rw [hty]; rfl) ?_]
    · simp [getField]
    · intro f hf
      simp only [List.mem_cons, List.not_mem_nil, or_false] at hf
      rcases hf with rfl | rfl | rfl <;> simp [getField, hty, h1, h2]
  · intro hty h1 h2
    rw [idify_recipe_eq digest e ["type", "deviceId", "ts"] hid
      (by rw [hty]; rfl) ?_]
    · simp [getField]
    · intro f hf
      simp only [List.mem_cons, List.not_mem_nil, or_false] at hf
      rcases hf with rfl | rfl | rfl <;> simp [getField, hty, h1, h2]

/-- C2 witness: the recipe theorem applied to a concrete `deviceMeta` event
(the subType recipe) with the identity digest. -/
theorem idify_recipes_witness :
    idify (fun s => s)
      { Event.empty with
        type := .vstr "deviceMeta",
        subType := .vstr "sub",
        ts := .vnum 5 } =
    .ok { Event.empty with
          type := .vstr "deviceMeta",
          subType := .vstr "sub",
          ts := .vnum 5,
          id := .vstr "deviceMetasub5" } := by
  have h := idify_recipes (fun s => s)
    { Event.empty with
      type := .vstr "deviceMeta",
      subType := .vstr "sub",
      ts := .vnum 5 } rfl
  exact h.2.2.2.1 rfl (by decide) (by decide)

/-- C7: `idify` is idempotent — an event whose `id` is already set is
returned unchanged, and running `idify` on an `idify` result returns that
result unchanged (so the id of a twice-idified event equals the id after
one idification). -/
theorem idify_idempotent (digest : String → String) (e e2 : Event) :
    (e.id ≠ .vnull → idify digest e = .ok e) ∧
    (idify digest e = .ok e2 → idify digest e2 = .ok e2) := by
  constructor
  · intro h
    simp [idify, h]
  · intro h
    have h2 : e2.id ≠ .vnull := by
      by_cases hid : e.id = .vnull
      · simp only [idify, if_pos hid] at h
        split at h
        · simp at h
        · split at h
          · simp at h
          · injection h with h4
            rw [← h4]
            simp
      · simp only [idify, if_neg hid] at h
        injection h with h4
        rw [← h4]
        exact hid
    simp [idify, h2]

/-- C7 witness: an event with `id` already set is returned unchanged, and a
concrete idified cbg event is a fixed point of `idify`. -/
theorem idify_idempotent_witness :
    idify (fun s => s) { Event.empty with id := .vstr "abc" } =
      .ok { Event.empty with id := .vstr "abc" } ∧
    idify (fun s => s)
      { Event.empty with
        type := .vstr "cbg",
        deviceId := .vstr "d",
        ts := .vnum 1,
        id := .vstr "cbgd1" } =
    .ok { Event.empty with
          type := .vstr "cbg",
          deviceId := .vstr "d",
          ts := .vnum 1,
          id := .vstr "cbgd1" } := by
  constructor
  · exact (idify_idempotent (fun s => s) { Event.empty with id := .vstr "abc" }
      Event.empty).1 (by decide)
  · exact (idify_idempotent (fun s => s)
      { Event.empty with
        type := .vstr "cbg",
        deviceId := .vstr "d",
        ts := .vnum 1 } _).2 (by rfl)

/-- C8: for an event without a pre-existing id, an unregistered type yields
the unknown-type error carrying the type and timestamp; a registered type
whose first null recipe field is `f` yields the missing-field error naming
the type and `f`; and an erroring `idify` never also returns an (even
partially idified) event. -/
theorem idify_error_cases (digest : String → String) (e : Event)
    (hid : e.id = .vnull) :
    (idifiers e.type = none → idify digest e = .error (.unknownType e.type e.ts)) ∧
    (∀ fields pre f post, idifiers e.type = some fields →
      fields = pre ++ f :: post → (∀ g ∈ pre, getField e g ≠ .vnull) →
      getField e f = .vnull →
      idify digest e = .error (.missingField e.type f)) ∧
    (∀ err e2, idify digest e = .error err → idify digest e ≠ .ok e2) := by
  refine ⟨?_, ?_, ?_⟩
  · intro h
    simp [idify, hid, h]
  · intro fields pre f post hrec hsplit hpre hf
    subst hsplit
    simp [idify, hid, hrec, getterVals_missing e pre f post hpre hf]
  · intro err e2 herr hok
    rw [herr] at hok
    exact Except.noConfusion hok

/-- C8 witness: a concrete unknown-type event (`foo`) errors with its type
and timestamp, and a concrete `cbg` event with no `ts` errors naming `cbg`
and `ts`. -/
theorem idify_error_cases_witness :
    idify (fun s => s) { Event.empty with type := .vstr "foo", ts := .vnum 3 } =
      .error (.unknownType (.vstr "foo") (.vnum 3)) ∧
    idify (fun s => s) { Event.empty with type := .vstr "cbg", deviceId := .vstr "d" } =
      .error (.missingField (.vstr "cbg") "ts") := by
  constructor
  · exact (idify_error_cases (fun s => s)
      { Event.empty with type := .vstr "foo", ts := .vnum 3 } rfl).1 rfl
  · exact (idify_error_cases (fun s => s)
      { Event.empty with type := .vstr "cbg", deviceId := .vstr "d" } rfl).2.1
      ["type", "deviceId", "ts"] ["type", "deviceId"] "ts" [] rfl rfl
      (by decide) rfl

/-- C6: a zero-duration temp basal event in state active emits exactly the
synthesized stop event — carrying the original's type, deviceTime, deviceId
and source plus deliveryType `temp-stop` and the remembered temp's id as
tempId — and clears the state; in state idle it emits nothing (and the step
is a total function, so no error is raised). -/
theorem tempBasal_stop_step (e t : Event) (hty : e.type = .vstr "basal")
    (hdel : e.deliveryType = .vstr "temp") (hdur : e.duration = .vnum 0) :
    tempBasalStep (some t) e = (none, some (mkTempStop e t)) ∧
    (mkTempStop e t).type = e.type ∧
    (mkTempStop e t).deviceTime = e.deviceTime ∧
    (mkTempStop e t).deviceId = e.deviceId ∧
    (mkTempStop e t).source = e.source ∧
    (mkTempStop e t).deliveryType = .vstr "temp-stop" ∧
    (mkTempStop e t).tempId = t.id ∧
    tempBasalStep none e = (none, none) := by
  simp [tempBasalStep, isTempBasal, hty, hdel, hdur, mkTempStop, Event.empty]

/-- C6 witness: the stop step applied to a concrete active temp and a
concrete zero-duration event. -/
theorem tempBasal_stop_step_witness :
    tempBasalStep
      (some { Event.empty with
              type := .vstr "basal",
              deliveryType := .vstr "temp",
              deviceId := .vstr "dev",
              ts := .vnum 1,
              duration := .vnum 30,
              id := .vstr "tempid" })
      { Event.empty with
        type := .vstr "basal",
        deliveryType := .vstr "temp",
        deviceId := .vstr "dev",
        ts := .vnum 2,
        duration := .vnum 0 } =
    (none, some (mkTempStop
      { Event.empty with
        type := .vstr "basal",
        deliveryType := .vstr "temp",
        deviceId := .vstr "dev",
        ts := .vnum 2,
        duration := .vnum 0 }
      { Event.empty with
        type := .vstr "basal",
        deliveryType := .vstr "temp",
        deviceId := .vstr "dev",
        ts := .vnum 1,
        duration := .vnum 30,
        id := .vstr "tempid" })) := by
  exact (tempBasal_stop_step _ _ rfl rfl rfl).1

/-- C10: the synthesized stop event consists of the six assigned properties
only — in particular its `ts`, `duration`, `subType` and `id` are all absent,
and the dynamic read of `ts` (the field the basal id recipe uses) yields
null. -/
theorem tempBasal_stop_fields (e t : Event) (hty : e.type = .vstr "basal")
    (hdel : e.deliveryType = .vstr "temp") (hdur : e.duration = .vnum 0) :
    tempBasalStep (some t) e = (none, some (mkTempStop e t)) ∧
    (mkTempStop e t).ts = .vnull ∧
    (mkTempStop e t).duration = .vnull ∧
    (mkTempStop e t).subType = .vnull ∧
    (mkTempStop e t).id = .vnull ∧
    getField (mkTempStop e t) "ts" = .vnull := by
  simp [tempBasalStep, isTempBasal, hty, hdel, hdur, mkTempStop, Event.empty,
    getField]

/-- C10 witness: the field absences at a concrete stop event. -/
theorem tempBasal_stop_fields_witness :
    (mkTempStop
      { Event.empty with
        type := .vstr "basal",
        deliveryType := .vstr "temp",
        deviceId := .vstr "pump9",
        ts := .vnum 44,
        duration := .vnum 0 }
      { Event.empty with
        type := .vstr "basal",
        deliveryType := .vstr "temp",
        deviceId := .vstr "pump9",
        ts := .vnum 40,
        duration := .vnum 15,
        id := .vstr "prior" }).ts = .vnull := by
  exact (tempBasal_stop_fields
    { Event.empty with
      type := .vstr "basal",
      deliveryType := .vstr "temp",
      deviceId := .vstr "pump9",
      ts := .vnum 44,
      duration := .vnum 0 }
    { Event.empty with
      type := .vstr "basal",
      deliveryType := .vstr "temp",
      deviceId := .vstr "pump9",
      ts := .vnum 40,
      duration := .vnum 15,
      id := .vstr "prior" } rfl rfl rfl).2.1

/-- C3 counterexample: with the identity digest, feeding the two scenario
events through TempBasalJoiner then `idify` yields only ONE event (the
idified temp start, id = digest of `basaltempd1100`) and then the
missing-field error for `ts`: the synthesized stop event carries no `ts`,
so its idification throws instead of producing a second idified event. -/
theorem tempBasal_idify_counterexample :
    joinIdifyTrace (fun s => s) none [tempStartRaw, tempStopRaw] =
      ([{ tempStartRaw with id := .vstr "basaltempd1100" }],
       some (.missingField (.vstr "basal") "ts")) := by
  decide

/-- C3 (amended): for every digest, the scenario pipeline emits the original
temp event idified from (type, deliveryType, deviceId, ts=100); processing
the zero-duration event synthesizes a stop event whose `tempId` is exactly
that first id and whose deliveryType is `temp-stop`, but the synthesized
event carries no `ts`, so `idify` throws the missing-field error for `ts`
and no second event is emitted. -/
theorem tempBasal_idify_pipeline (digest : String → String) :
    joinIdifyTrace digest none [tempStartRaw, tempStopRaw] =
      ([{ tempStartRaw with id := .vstr (digest "basaltempd1100") }],
       some (.missingField (.vstr "basal") "ts")) ∧
    (mkTempStop tempStopRaw
      { tempStartRaw with id := .vstr (digest "basaltempd1100") }).tempId =
      .vstr (digest "basaltempd1100") ∧
    (mkTempStop tempStopRaw
      { tempStartRaw with id := .vstr (digest "basaltempd1100") }).deliveryType =
      .vstr "temp-stop" := by
  refine ⟨?_, rfl, rfl⟩
  rfl

lemma splitLines_nl (rest : List Char) :
    splitLines ('\n' :: rest) = ([] :: (splitLines rest).1, (splitLines rest).2) := by
  simp [splitLines]

lemma splitLines_ch_nil (c : Char) (rest : List Char) (hc : c ≠ '\n')
    (h1 : (splitLines rest).1 = []) :
    splitLines (c :: rest) = ([], c :: (splitLines rest).2) := by
  rcases hsp : splitLines rest with ⟨l1, rem⟩
  rw [hsp] at h1
  simp only at h1
  subst h1
  simp [splitLines, hc, hsp]

lemma splitLines_ch_cons (c : Char) (rest : List Char) (hc : c ≠ '\n')
    {l : List Char} {ls : List (List Char)}
    (h1 : (splitLines rest).1 = l :: ls) :
    splitLines (c :: rest) = ((c :: l) :: ls, (splitLines rest).2) := by
  rcases hsp : splitLines rest with ⟨l1, rem⟩
  rw [hsp] at h1
  simp only at h1
  subst h1
  simp [splitLines, hc, hsp]

lemma splitLines_append (a b : List Char) :
    splitLines (a ++ b) =
      ((splitLines a).1 ++ (splitLines ((splitLines a).2 ++ b)).1,
       (splitLines ((splitLines a).2 ++ b)).2) := by
  induction a with
  | nil => simp [splitLines]
  | cons c a ih =>
    by_cases hc : c = '\n'
    · subst hc
      rw [List.cons_append, splitLines_nl, splitLines_nl, ih]
      simp
    · rcases h1 : (splitLines a).1 with _ | ⟨l, ls⟩
      · rcases hy : (splitLines ((splitLines a).2 ++ b)).1 with _ | ⟨m, ms⟩
        · have hab1 : (splitLines (a ++ b)).1 = [] := by
            rw [ih, h1, hy]
            rfl
          have hab2 : (splitLines (a ++ b)).2 =
              (splitLines ((splitLines a).2 ++ b)).2 := by
            rw [ih]
          rw [List.cons_append, splitLines_ch_nil c (a ++ b) hc hab1, hab2,
            splitLines_ch_nil c a hc h1]
          simp only [List.cons_append]
          rw [splitLines_ch_nil c ((splitLines a).2 ++ b) hc hy]
          simp
        · have hab1 : (splitLines (a ++ b)).1 = m :: ms := by
            rw [ih, h1, hy]
            rfl
          have hab2 : (splitLines (a ++ b)).2 =
              (splitLines ((splitLines a).2 ++ b)).2 := by
            rw [ih]
          rw [List.cons_append, splitLines_ch_cons c (a ++ b) hc hab1, hab2,
            splitLines_ch_nil c a hc h1]
          simp only [List.cons_append]
          rw [splitLines_ch_cons c ((splitLines a).2 ++ b) hc hy]
          simp
      · have hab1 : (splitLines (a ++ b)).1 =
            l :: (ls ++ (splitLines ((splitLines a).2 ++ b)).1) := by
          rw [ih, h1]
          rfl
        have hab2 : (splitLines (a ++ b)).2 =
            (splitLines ((splitLines a).2 ++ b)).2 := by
          rw [ih]
        rw [List.cons_append, splitLines_ch_cons c (a ++ b) hc hab1, hab2,
          splitLines_ch_cons c a hc h1]
        simp

lemma splitLines_no_nl (s : List Char) (h : '\n' ∉ s) :
    splitLines s = ([], s) := by
  induction s with
  | nil => rfl
  | cons c rest ih =>
    have hc : c ≠ '\n' := fun hh => h (by simp [hh])
    have hrest := ih (fun hm => h (by simp [hm]))
    rw [splitLines_ch_nil c rest hc (by rw [hrest]), hrest]

lemma splitLines_rem_no_nl (s : List Char) : '\n' ∉ (splitLines s).2 := by
  induction s with
  | nil => simp [splitLines]
  | cons c rest ih =>
    by_cases hc : c = '\n'
    · subst hc
      rw [splitLines_nl]
      exact ih
    · rcases h1 : (splitLines rest).1 with _ | ⟨l, ls⟩
      · rw [splitLines_ch_nil c rest hc h1]
        simp only [List.mem_cons]
        rintro (heq | hmem)
        · exact hc heq.symm
        · exact ih hmem
      · rw [splitLines_ch_cons c rest hc h1]
        exact ih

lemma splitLines_line (l : List Char) (h : '\n' ∉ l) :
    splitLines (l ++ ['\n']) = ([l], []) := by
  induction l with
  | nil =>
    simp only [List.nil_append]
    rw [splitLines_nl]
    rfl
  | cons c rest ih =>
    have hc : c ≠ '\n' := fun hh => h (by simp [hh])
    have ih2 := ih (fun hm => h (by simp [hm]))
    rw [List.cons_append, splitLines_ch_cons c (rest ++ ['\n']) hc (by rw [ih2]),
      ih2]

lemma splitLines_catLines (lines : List (List Char)) (frag : List Char)
    (hl : ∀ l ∈ lines, '\n' ∉ l) (hf : '\n' ∉ frag) :
    splitLines (catLines lines ++ frag) = (lines, frag) := by
  induction lines with
  | nil => simpa [catLines] using splitLines_no_nl frag hf
  | cons l rest ih =>
    have hstep : catLines (l :: rest) ++ frag =
        (l ++ ['\n']) ++ (catLines rest ++ frag) := by
      simp [catLines]
    rw [hstep, splitLines_append, splitLines_line l (hl l (by simp))]
    simp [ih (fun x hx => hl x (by simp [hx]))]

lemma readlineFold_go (chunks : List (List Char)) :
    ∀ buf outs, '\n' ∉ buf →
      List.foldl
        (fun acc c => ((readlineNext acc.1 c).1, acc.2 ++ (readlineNext acc.1 c).2))
        (buf, outs) chunks =
      ((splitLines (buf ++ catAll chunks)).2,
       outs ++ (splitLines (buf ++ catAll chunks)).1.map (fun l => l ++ ['\n'])) := by
  induction chunks with
  | nil =>
    intro buf outs hb
    simp [catAll, splitLines_no_nl buf hb]
  | cons c cs ih =>
    intro buf outs hb
    rw [List.foldl_cons]
    show List.foldl _ ((readlineNext buf c).1, outs ++ (readlineNext buf c).2) cs = _
    rw [ih (readlineNext buf c).1 (outs ++ (readlineNext buf c).2)
      (by simpa [readlineNext] using splitLines_rem_no_nl (buf ++ c))]
    have hcat : buf ++ catAll (c :: cs) = (buf ++ c) ++ catAll cs := by
      simp [catAll]
    rw [hcat, splitLines_append (buf ++ c) (catAll cs)]
    simp [readlineNext]

/-- C5 counterexample: the single chunk `"a\n"` is one line terminated by a
line-feed (N = 1), but `readline` emits TWO elements — the line and then the
empty remaining buffer flushed on completion — not exactly N elements. -/
theorem readline_counterexample :
    readlineRun [['a', '\n']] = [['a', '\n'], []] ∧
    readlineRun [['a', '\n']] ≠ [['a', '\n']] := by
  decide

/-- C5 (amended): feeding `readline` any chunking of N lines each terminated
by a line-feed followed by a final unterminated fragment yields the N lines
(each with its terminator) in order, followed by the fragment as the last
element flushed on completion; when the input ends at a line-feed the
flushed fragment is the empty string, an extra trailing element beyond the
N lines. -/
theorem readline_roundtrip (lines : List (List Char)) (frag : List Char)
    (chunks : List (List Char)) (hl : ∀ l ∈ lines, '\n' ∉ l)
    (hf : '\n' ∉ frag) (hchunks : catAll chunks = catLines lines ++ frag) :
    readlineRun chunks = lines.map (fun l => l ++ ['\n']) ++ [frag] := by
  unfold readlineRun readlineFold
  rw [readlineFold_go chunks [] [] (by simp)]
  simp only [List.nil_append]
  rw [hchunks, splitLines_catLines lines frag hl hf]

/-- C5 witness: the roundtrip applied to the two lines `a`, `b` and fragment
`c`, chunked across a line boundary. -/
theorem readline_roundtrip_witness :
    readlineRun [['a', '\n', 'b'], ['\n', 'c']] =
      [['a', '\n'], ['b', '\n'], ['c']] := by
  exact readline_roundtrip [['a'], ['b']] ['c'] [['a', '\n', 'b'], ['\n', 'c']]
    (by decide) (by decide) (by decide)

lemma completed_not_mem_map_next (l : List Event) :
    OutSig.completed ∉ l.map OutSig.next := by
  simp

lemma map_key_of_preserve (flows : List FlowEntry) (upd : FlowEntry → FlowEntry)
    (hk : ∀ g, (upd g).key = g.key) :
    (flows.map upd).map (fun f => f.key) = flows.map (fun f => f.key) := by
  induction flows with
  | nil => rfl
  | cons a as ih => simp [hk, ih]

lemma find?_append_right (p : FlowEntry → Bool) (l : List FlowEntry)
    (x : FlowEntry) (hl : l.find? p = none) (hx : p x = true) :
    (l ++ [x]).find? p = some x := by
  induction l with
  | nil => simp [List.find?, hx]
  | cons a as ih =>
    cases hpa : p a with
    | true =>
      rw [List.find?_cons_of_pos _ hpa] at hl
      exact Option.noConfusion hl
    | false =>
      rw [List.find?_cons_of_neg _ (by simp [hpa])] at hl
      rw [List.cons_append, List.find?_cons_of_neg _ (by simp [hpa])]
      exact ih hl

lemma pushEvent_step_eq (flows : List FlowEntry) (k : String) (e : Event)
    (f : FlowEntry) (hfind : flows.find? (fun g => g.key == k) = some f)
    (hopen : f.closed = false) (hstep : (f.hb.step f.hstate e).2.2 = false) :
    pushEvent flows k e =
      (flows.map (fun g =>
        if g.key == k then { g with hstate := (f.hb.step f.hstate e).1 } else g),
       ((f.hb.step f.hstate e).2.1).map OutSig.next) := by
  unfold pushEvent
  rw [hfind]
  simp [hopen, hstep]

lemma routeEvent_existing (sel : Event → String)
    (handlers : String → Option HandlerB) (flows : List FlowEntry) (e : Event)
    (f : FlowEntry) (hfind : flows.find? (fun g => g.key == sel e) = some f) :
    routeEvent sel handlers flows e =
      .ok ((pushEvent flows (sel e) e).1, (pushEvent flows (sel e) e).2, []) := by
  unfold routeEvent
  rw [hfind]

lemma routeEvent_new (sel : Event → String) (h : String → HandlerB)
    (flows : List FlowEntry) (e : Event)
    (hfind : flows.find? (fun g => g.key == sel e) = none)
    (hsub : (h (sel e)).subDone = false) :
    routeEvent sel (fun k => some (h k)) flows e =
      .ok ((pushEvent
              (flows ++ [(⟨sel e, h (sel e), (h (sel e)).init, false⟩ : FlowEntry)])
              (sel e) e).1,
           (h (sel e)).subOut.map OutSig.next ++
             (pushEvent
               (flows ++ [(⟨sel e, h (sel e), (h (sel e)).init, false⟩ : FlowEntry)])
               (sel e) e).2,
           [sel e]) := by
  unfold routeEvent
  rw [hfind]
  simp [hsub]

lemma pushEvent_new (flows : List FlowEntry) (k : String) (e : Event)
    (hb : HandlerB) (hfind : flows.find? (fun g => g.key == k) = none)
    (hstep : (hb.step hb.init e).2.2 = false) :
    pushEvent (flows ++ [(⟨k, hb, hb.init, false⟩ : FlowEntry)]) k e =
      ((flows ++ [(⟨k, hb, hb.init, false⟩ : FlowEntry)]).map (fun g =>
        if g.key == k then { g with hstate := (hb.step hb.init e).1 } else g),
       ((hb.step hb.init e).2.1).map OutSig.next) := by
  have hf2 : (flows ++ [(⟨k, hb, hb.init, false⟩ : FlowEntry)]).find?
      (fun g => g.key == k) = some (⟨k, hb, hb.init, false⟩ : FlowEntry) :=
    find?_append_right _ flows _ hfind (by simp)
  exact pushEvent_step_eq _ k e _ hf2 rfl hstep

lemma runEvents_cons_ok (sel : Event → String)
    (handlers : String → Option HandlerB) (flows : List FlowEntry) (e : Event)
    (rest : List Event) (fl2 : List FlowEntry) (sg : List OutSig)
    (iv : List String) (fl3 : List FlowEntry) (sg2 : List OutSig)
    (iv2 : List String)
    (hroute : routeEvent sel handlers flows e = .ok (fl2, sg, iv))
    (hrest : runEvents sel handlers fl2 rest = .ok (fl3, sg2, iv2)) :
    runEvents sel handlers flows (e :: rest) = .ok (fl3, sg ++ sg2, iv ++ iv2) := by
  unfold runEvents
  rw [hroute]
  show (match runEvents sel handlers fl2 rest with
    | Except.error m => Except.error m
    | Except.ok (flows3, sigs2, inv2) =>
      Except.ok (flows3, sg ++ sigs2, iv ++ inv2)) =
    Except.ok (fl3, sg ++ sg2, iv ++ iv2)
  rw [hrest]

lemma runEvents_cons_err (sel : Event → String)
    (handlers : String → Option HandlerB) (flows : List FlowEntry) (e : Event)
    (rest : List Event) (m : String)
    (hroute : routeEvent sel handlers flows e = .error m) :
    runEvents sel handlers flows (e :: rest) = .error m := by
  unfold runEvents
  rw [hroute]

lemma runEvents_flowDriven (sel : Event → String) (h : String → HandlerB)
    (hfd : ∀ k, flowDriven (h k)) :
    ∀ (evs : List Event) (flows : List FlowEntry),
      (∀ f ∈ flows, f.closed = false ∧ f.hb = h f.key) →
      ((flows.map (fun f => f.key)).Nodup) →
      ∃ flows2 sigs inv,
        runEvents sel (fun k => some (h k)) flows evs = .ok (flows2, sigs, inv) ∧
        flows2.map (fun f => f.key) = flows.map (fun f => f.key) ++ inv ∧
        (∀ f ∈ flows2, f.closed = false ∧ f.hb = h f.key) ∧
        ((flows2.map (fun f => f.key)).Nodup) ∧
        OutSig.completed ∉ sigs := by
  intro evs
  induction evs with
  | nil =>
    intro flows hinv hnd
    exact ⟨flows, [], [], rfl, by simp, hinv, hnd, by simp⟩
  | cons e rest ih =>
    intro flows hinv hnd
    cases hfind : flows.find? (fun g => g.key == sel e) with
    | some f =>
      have hmem := List.mem_of_find?_eq_some hfind
      have hopen := (hinv f hmem).1
      have hhb := (hinv f hmem).2
      have hstep : (f.hb.step f.hstate e).2.2 = false := by
        rw [hhb]
        exact (hfd f.key).2 f.hstate e
      have hpush := pushEvent_step_eq flows (sel e) e f hfind hopen hstep
      have hkpres : ∀ g : FlowEntry,
          ((fun g : FlowEntry =>
            if g.key == sel e then
              { g with hstate := (f.hb.step f.hstate e).1 }
            else g) g).key = g.key := by
        intro g
        by_cases hgk : (g.key == sel e) = true <;> simp [hgk]
      have hkeys1 : ((flows.map (fun g : FlowEntry =>
          if g.key == sel e then
            { g with hstate := (f.hb.step f.hstate e).1 }
          else g)).map (fun f => f.key)) = flows.map (fun f => f.key) :=
        map_key_of_preserve flows _ hkpres
      have hinv1 : ∀ f2 ∈ flows.map (fun g : FlowEntry =>
          if g.key == sel e then
            { g with hstate := (f.hb.step f.hstate e).1 }
          else g), f2.closed = false ∧ f2.hb = h f2.key := by
        intro f2 hf2
        rw [List.mem_map] at hf2
        obtain ⟨g, hg, hgeq⟩ := hf2
        have hsame : f2.key = g.key ∧ f2.closed = g.closed ∧ f2.hb = g.hb := by
          rw [← hgeq]
          by_cases hgk : (g.key == sel e) = true <;> simp [hgk]
        rw [hsame.1, hsame.2.1, hsame.2.2]
        exact hinv g hg
      obtain ⟨flows2, sigs2, inv2, hrun2, hkeys2, hinv2, hnd2, hns2⟩ :=
        ih (flows.map (fun g : FlowEntry =>
          if g.key == sel e then
            { g with hstate := (f.hb.step f.hstate e).1 }
          else g)) hinv1 (by rw [hkeys1]; exact hnd)
      refine ⟨flows2, ((f.hb.step f.hstate e).2.1).map OutSig.next ++ sigs2,
        inv2, ?_, ?_, hinv2, hnd2, ?_⟩
      · have hroute : routeEvent sel (fun k => some (h k)) flows e =
            .ok (flows.map (fun g : FlowEntry =>
              if g.key == sel e then
                { g with hstate := (f.hb.step f.hstate e).1 }
              else g),
             ((f.hb.step f.hstate e).2.1).map OutSig.next, []) := by
          rw [routeEvent_existing sel _ flows e f hfind, hpush]
        exact runEvents_cons_ok sel _ flows e rest _ _ _ _ _ _ hroute hrun2
      · rw [hkeys2, hkeys1]
      · simp only [List.mem_append]
        rintro (hmem | hmem)
        · exact completed_not_mem_map_next _ hmem
        · exact hns2 hmem
    | none =>
      have hsub : (h (sel e)).subDone = false := (hfd (sel e)).1
      have hstep : ((h (sel e)).step (h (sel e)).init e).2.2 = false :=
        (hfd (sel e)).2 _ _
      have hpush := pushEvent_new flows (sel e) e (h (sel e)) hfind hstep
      have hnotin : sel e ∉ flows.map (fun f => f.key) := by
        intro hmem
        rw [List.mem_map] at hmem
        obtain ⟨g, hg, hgeq⟩ := hmem
        have hno := List.find?_eq_none.mp hfind g hg
        simp [hgeq] at hno
      have hkpres : ∀ g : FlowEntry,
          ((fun g : FlowEntry =>
            if g.key == sel e then
              { g with hstate := ((h (sel e)).step (h (sel e)).init e).1 }
            else g) g).key = g.key := by
        intro g
        by_cases hgk : (g.key == sel e) = true <;> simp [hgk]
      have hkeys1 : (((flows ++ [(⟨sel e, h (sel e), (h (sel e)).init, false⟩ : FlowEntry)]).map
          (fun g : FlowEntry =>
            if g.key == sel e then
              { g with hstate := ((h (sel e)).step (h (sel e)).init e).1 }
            else g)).map (fun f => f.key)) =
          flows.map (fun f => f.key) ++ [sel e] := by
        rw [map_key_of_preserve _ _ hkpres]
        simp
      have hinv1 : ∀ f2 ∈ (flows ++ [(⟨sel e, h (sel e), (h (sel e)).init, false⟩ : FlowEntry)]).map
          (fun g : FlowEntry =>
            if g.key == sel e then
              { g with hstate := ((h (sel e)).step (h (sel e)).init e).1 }
            else g), f2.closed = false ∧ f2.hb = h f2.key := by
        intro f2 hf2
        rw [List.mem_map] at hf2
        obtain ⟨g, hg, hgeq⟩ := hf2
        have hsame : f2.key = g.key ∧ f2.closed = g.closed ∧ f2.hb = g.hb := by
          rw [← hgeq]
          by_cases hgk : (g.key == sel e) = true <;> simp [hgk]
        rw [hsame.1, hsame.2.1, hsame.2.2]
        rw [List.mem_append] at hg
        rcases hg with hg | hg
        · exact hinv g hg
        · rw [List.mem_singleton] at hg
          subst hg
          exact ⟨rfl, rfl⟩
      have hnd1 : ((((flows ++ [(⟨sel e, h (sel e), (h (sel e)).init, false⟩ : FlowEntry)]).map
          (fun g : FlowEntry =>
            if g.key == sel e then
              { g with hstate := ((h (sel e)).step (h (sel e)).init e).1 }
            else g)).map (fun f => f.key)).Nodup) := by
        rw [hkeys1]
        simp [List.nodup_append, hnd, hnotin]
      obtain ⟨flows2, sigs2, inv2, hrun2, hkeys2, hinv2, hnd2, hns2⟩ :=
        ih ((flows ++ [(⟨sel e, h (sel e), (h (sel e)).init, false⟩ : FlowEntry)]).map
          (fun g : FlowEntry =>
            if g.key == sel e then
              { g with hstate := ((h (sel e)).step (h (sel e)).init e).1 }
            else g)) hinv1 hnd1
      refine ⟨flows2,
        ((h (sel e)).subOut.map OutSig.next ++
          (((h (sel e)).step (h (sel e)).init e).2.1).map OutSig.next) ++ sigs2,
        sel e :: inv2, ?_, ?_, hinv2, hnd2, ?_⟩
      · have hroute : routeEvent sel (fun k => some (h k)) flows e =
            .ok ((flows ++ [(⟨sel e, h (sel e), (h (sel e)).init, false⟩ : FlowEntry)]).map
              (fun g : FlowEntry =>
                if g.key == sel e then
                  { g with hstate := ((h (sel e)).step (h (sel e)).init e).1 }
                else g),
             (h (sel e)).subOut.map OutSig.next ++
               (((h (sel e)).step (h (sel e)).init e).2.1).map OutSig.next,
             [sel e]) := by
          rw [routeEvent_new sel h flows e hfind hsub, hpush]
        exact runEvents_cons_ok sel _ flows e rest _ _ _ _ _ _ hroute hrun2
      · rw [hkeys2, hkeys1]
        simp
      · simp only [List.mem_append]
        rintro ((hmem | hmem) | hmem)
        · exact completed_not_mem_map_next _ hmem
        · exact completed_not_mem_map_next _ hmem
        · exact hns2 hmem

lemma flushFlows_cons_open (flows : List FlowEntry) (k : String)
    (ks : List String) (f : FlowEntry)
    (hfind : flows.find? (fun g => g.key == k) = some f)
    (hopen : f.closed = false) :
    flushFlows flows (k :: ks) =
      ((flushFlows (completeFlow flows k).1 ks).1,
       (f.hb.flush f.hstate).map OutSig.next ++ (completeFlow flows k).2 ++
         (flushFlows (completeFlow flows k).1 ks).2) := by
  conv_lhs => rw [flushFlows]
  rw [hfind]
  show (if f.closed = true then flushFlows flows ks
    else ((flushFlows (completeFlow flows k).1 ks).1,
      (f.hb.flush f.hstate).map OutSig.next ++ (completeFlow flows k).2 ++
        (flushFlows (completeFlow flows k).1 ks).2)) = _
  rw [if_neg (by simp [hopen])]

lemma flushFlows_open :
    ∀ (flows : List FlowEntry),
      (∀ f ∈ flows, f.closed = false) →
      ((flows.map (fun f => f.key)).Nodup) →
      flows ≠ [] →
      ∃ pre, (flushFlows flows (flows.map (fun f => f.key))).2 =
        pre ++ [OutSig.completed] ∧ OutSig.completed ∉ pre := by
  intro flows
  induction flows with
  | nil =>
    intro _ _ hne
    exact absurd rfl hne
  | cons f rest ih =>
    intro hopen hnd _
    have hfind : (f :: rest).find? (fun g => g.key == f.key) = some f :=
      List.find?_cons_of_pos _ (by simp)
    have hnd2 : (f.key ∉ rest.map (fun g => g.key)) ∧
        ((rest.map (fun g => g.key)).Nodup) := by
      rw [List.map_cons, List.nodup_cons] at hnd
      exact hnd
    have hfilter : (f :: rest).filter (fun g => g.key != f.key) = rest := by
      rw [List.filter_cons]
      rw [if_neg (by simp)]
      apply List.filter_eq_self.mpr
      intro a ha
      have hne2 : a.key ≠ f.key := by
        intro heq
        exact hnd2.1 (by rw [← heq]; exact List.mem_map_of_mem _ ha)
      simp [hne2]
    have hcf : completeFlow (f :: rest) f.key =
        (rest, if rest.isEmpty then [OutSig.completed] else []) := by
      unfold completeFlow
      rw [hfilter]
    have hstep2 : flushFlows (f :: rest) ((f :: rest).map (fun g => g.key)) =
        ((flushFlows rest (rest.map (fun g => g.key))).1,
         (f.hb.flush f.hstate).map OutSig.next ++
           (if rest.isEmpty then [OutSig.completed] else []) ++
           (flushFlows rest (rest.map (fun g => g.key))).2) := by
      rw [List.map_cons]
      rw [flushFlows_cons_open (f :: rest) f.key (rest.map (fun g => g.key)) f
        hfind (hopen f (by simp)), hcf]
    by_cases hre : rest = []
    · subst hre
      refine ⟨(f.hb.flush f.hstate).map OutSig.next, ?_,
        completed_not_mem_map_next _⟩
      rw [hstep2]
      simp [flushFlows]
    · obtain ⟨pre2, hpre2, hmem2⟩ :=
        ih (fun g hg => hopen g (by simp [hg])) hnd2.2 hre
      refine ⟨(f.hb.flush f.hstate).map OutSig.next ++ pre2, ?_, ?_⟩
      · rw [hstep2]
        show (f.hb.flush f.hstate).map OutSig.next ++
          (if rest.isEmpty then [OutSig.completed] else []) ++
          (flushFlows rest (rest.map (fun g => g.key))).2 = _
        rw [hpre2, if_neg (by simp [List.isEmpty_iff, hre])]
        simp
      · simp only [List.mem_append]
        rintro (hmem | hmem)
        · exact completed_not_mem_map_next _ hmem
        · exact hmem2 hmem

/-- C1 (amended): the per-key completion callback completes the merged
output exactly when removing the key's entry leaves the flow table empty —
without consulting the upstream.  For handler sets whose outputs complete
only in response to their flow completing (such as identity handlers), the
merged output therefore never completes while the upstream is live, and a
full run (events, then upstream completion) delivers `completed` exactly
once, as the final signal.  In general, however, a handler output that
completes early empties the table and completes the merged output while the
upstream is still live (see the accompanying counterexample). -/
theorem splitMerge_completion (sel : Event → String) (h : String → HandlerB)
    (evs : List Event) (hfd : ∀ k, flowDriven (h k)) :
    OutSig.completed ∉ smEventSigs sel h evs ∧
    ∃ pre, smFullSigs sel h evs = pre ++ [OutSig.completed] ∧
      OutSig.completed ∉ pre := by
  obtain ⟨flows2, sigs, inv, hrun, hkeys, hinv2, hnd2, hns⟩ :=
    runEvents_flowDriven sel h hfd evs [] (by simp) (by simp)
  constructor
  · unfold smEventSigs
    rw [hrun]
    exact hns
  · unfold smFullSigs
    rw [hrun]
    show ∃ pre, sigs ++ completeUpstream flows2 = pre ++ [OutSig.completed] ∧
      OutSig.completed ∉ pre
    by_cases hemp : flows2 = []
    · subst hemp
      exact ⟨sigs, by simp [completeUpstream], hns⟩
    · unfold completeUpstream
      rw [if_neg (by simp [List.isEmpty_iff, hemp])]
      obtain ⟨pre, hpre, hprem⟩ :=
        flushFlows_open flows2 (fun f hf => (hinv2 f hf).1) hnd2 hemp
      refine ⟨sigs ++ pre, ?_, ?_⟩
      · rw [hpre]
        simp
      · simp only [List.mem_append]
        rintro (hmem | hmem)
        · exact hns hmem
        · exact hprem hmem

/-- C4 (amended): for flow-driven handler sets (outputs completing only when
their flow completes) a splitMerge instance invokes the handler at most once
per distinct key over the whole run: the invocation list has no duplicate
key.  In general the at-most-once guarantee holds only while a key's entry
remains in the flow table: when a handler output completes early, its entry
is removed and a later event bearing the same key invokes the handler again
(see the accompanying counterexample). -/
theorem splitMerge_handler_once (sel : Event → String) (h : String → HandlerB)
    (evs : List Event) (hfd : ∀ k, flowDriven (h k)) :
    (smInvocations sel h evs).Nodup := by
  obtain ⟨flows2, sigs, inv, hrun, hkeys, hinv2, hnd2, hns⟩ :=
    runEvents_flowDriven sel h hfd evs [] (by simp) (by simp)
  unfold smInvocations
  rw [hrun]
  show inv.Nodup
  have hkeq : flows2.map (fun f => f.key) = inv := by simpa using hkeys
  rw [← hkeq]
  exact hnd2

lemma pushEvent_none (flows : List FlowEntry) (k : String) (e : Event)
    (hfind : flows.find? (fun g => g.key == k) = none) :
    pushEvent flows k e = (flows, []) := by
  unfold pushEvent
  rw [hfind]

lemma pushEvent_closed (flows : List FlowEntry) (k : String) (e : Event)
    (f : FlowEntry) (hfind : flows.find? (fun g => g.key == k) = some f)
    (hc : f.closed = true) :
    pushEvent flows k e = (flows, []) := by
  unfold pushEvent
  rw [hfind]
  simp [hc]

lemma pushEvent_done (flows : List FlowEntry) (k : String) (e : Event)
    (f : FlowEntry) (hfind : flows.find? (fun g => g.key == k) = some f)
    (hc : f.closed = false) (hd : (f.hb.step f.hstate e).2.2 = true) :
    pushEvent flows k e =
      ((completeFlow flows k).1,
       ((f.hb.step f.hstate e).2.1).map OutSig.next ++ (completeFlow flows k).2) := by
  unfold pushEvent
  rw [hfind]
  simp [hc, hd]

lemma completeFlow_keys_sub (flows : List FlowEntry) (k : String)
    (P : String → Prop) (hP : ∀ f ∈ flows, P f.key) :
    ∀ f2 ∈ (completeFlow flows k).1, P f2.key := by
  intro f2 hf2
  exact hP f2 (List.mem_of_mem_filter hf2)

lemma pushEvent_keys_sub (flows : List FlowEntry) (k : String) (e : Event)
    (P : String → Prop) (hP : ∀ f ∈ flows, P f.key) :
    ∀ f2 ∈ (pushEvent flows k e).1, P f2.key := by
  intro f2 hf2
  cases hx : flows.find? (fun g => g.key == k) with
  | none =>
    rw [pushEvent_none flows k e hx] at hf2
    exact hP f2 hf2
  | some f =>
    cases hc : f.closed with
    | true =>
      rw [pushEvent_closed flows k e f hx hc] at hf2
      exact hP f2 hf2
    | false =>
      cases hd : (f.hb.step f.hstate e).2.2 with
      | true =>
        rw [pushEvent_done flows k e f hx hc hd] at hf2
        exact completeFlow_keys_sub flows k P hP f2 hf2
      | false =>
        rw [pushEvent_step_eq flows k e f hx hc hd] at hf2
        rw [List.mem_map] at hf2
        obtain ⟨g, hg, hgeq⟩ := hf2
        have hkey : f2.key = g.key := by
          rw [← hgeq]
          by_cases hgk : (g.key == k) = true <;> simp [hgk]
        rw [hkey]
        exact hP g hg

lemma routeEvent_new_any (sel : Event → String)
    (handlers : String → Option HandlerB) (flows : List FlowEntry) (e : Event)
    (hb : HandlerB) (hfind : flows.find? (fun g => g.key == sel e) = none)
    (hh : handlers (sel e) = some hb) :
    routeEvent sel handlers flows e =
      .ok ((pushEvent
              ((if hb.subDone then completeFlow flows (sel e) else (flows, [])).1 ++
                [(⟨sel e, hb, hb.init, hb.subDone⟩ : FlowEntry)]) (sel e) e).1,
           hb.subOut.map OutSig.next ++
             (if hb.subDone then completeFlow flows (sel e) else (flows, [])).2 ++
             (pushEvent
               ((if hb.subDone then completeFlow flows (sel e) else (flows, [])).1 ++
                 [(⟨sel e, hb, hb.init, hb.subDone⟩ : FlowEntry)]) (sel e) e).2,
           [sel e]) := by
  unfold routeEvent
  rw [hfind, hh]

lemma runEvents_cons_ok_err (sel : Event → String)
    (handlers : String → Option HandlerB) (flows : List FlowEntry) (e : Event)
    (rest : List Event) (fl2 : List FlowEntry) (sg : List OutSig)
    (iv : List String) (m : String)
    (hroute : routeEvent sel handlers flows e = .ok (fl2, sg, iv))
    (hrest : runEvents sel handlers fl2 rest = .error m) :
    runEvents sel handlers flows (e :: rest) = .error m := by
  unfold runEvents
  rw [hroute]
  show (match runEvents sel handlers fl2 rest with
    | Except.error m => Except.error m
    | Except.ok (flows3, sigs2, inv2) =>
      Except.ok (flows3, sg ++ sigs2, iv ++ inv2)) = Except.error m
  rw [hrest]

lemma runEvents_unknown (sel : Event → String)
    (handlers : String → Option HandlerB) (e : Event) (post : List Event)
    (hmiss : handlers (sel e) = none) :
    ∀ (pre : List Event) (flows : List FlowEntry),
      (∀ p ∈ pre, (handlers (sel p)).isSome) →
      (∀ f ∈ flows, (handlers f.key).isSome) →
      runEvents sel handlers flows (pre ++ e :: post) =
        .error ("Unknown key[" ++ sel e ++ "].") := by
  intro pre
  induction pre with
  | nil =>
    intro flows _ hf
    have hfind : flows.find? (fun g => g.key == sel e) = none := by
      cases hx : flows.find? (fun g => g.key == sel e) with
      | none => rfl
      | some f =>
        have hmem := List.mem_of_find?_eq_some hx
        have hkey : f.key = sel e := by simpa using List.find?_some hx
        have hsome := hf f hmem
        rw [hkey, hmiss] at hsome
        simp at hsome
    have hroute : routeEvent sel handlers flows e =
        .error ("Unknown key[" ++ sel e ++ "].") := by
      unfold routeEvent
      rw [hfind, hmiss]
    show runEvents sel handlers flows (e :: post) = _
    exact runEvents_cons_err sel handlers flows e post _ hroute
  | cons p pre2 ih =>
    intro flows hp hf
    show runEvents sel handlers flows (p :: (pre2 ++ e :: post)) = _
    cases hx : flows.find? (fun g => g.key == sel p) with
    | some f =>
      have hroute := routeEvent_existing sel handlers flows p f hx
      have hsub : ∀ f2 ∈ (pushEvent flows (sel p) p).1, (handlers f2.key).isSome :=
        pushEvent_keys_sub flows (sel p) p (fun k2 => (handlers k2).isSome = true) hf
      have hrest := ih (pushEvent flows (sel p) p).1
        (fun q hq => hp q (by simp [hq])) hsub
      exact runEvents_cons_ok_err sel handlers flows p _ _ _ _ _ hroute hrest
    | none =>
      have hsome := hp p (by simp)
      cases hh : handlers (sel p) with
      | none =>
        rw [hh] at hsome
        simp at hsome
      | some hb =>
        have hroute := routeEvent_new_any sel handlers flows p hb hx hh
        have hGsub : ∀ f2 ∈
            (if hb.subDone then completeFlow flows (sel p) else (flows, [])).1 ++
              [(⟨sel p, hb, hb.init, hb.subDone⟩ : FlowEntry)],
            (handlers f2.key).isSome := by
          intro f2 hf2
          rw [List.mem_append] at hf2
          rcases hf2 with hf2 | hf2
          · cases hsd : hb.subDone with
            | true =>
              rw [hsd] at hf2
              rw [if_pos rfl] at hf2
              exact completeFlow_keys_sub flows (sel p)
                (fun k2 => (handlers k2).isSome = true) hf f2 hf2
            | false =>
              rw [hsd] at hf2
              rw [if_neg (by simp)] at hf2
              exact hf f2 hf2
          · rw [List.mem_singleton] at hf2
            subst hf2
            show (handlers (sel p)).isSome
            rw [hh]
            rfl
        have hsub : ∀ f2 ∈ (pushEvent
            ((if hb.subDone then completeFlow flows (sel p) else (flows, [])).1 ++
              [(⟨sel p, hb, hb.init, hb.subDone⟩ : FlowEntry)]) (sel p) p).1,
            (handlers f2.key).isSome :=
          pushEvent_keys_sub _ (sel p) p (fun k2 => (handlers k2).isSome = true) hGsub
        have hrest := ih _ (fun q hq => hp q (by simp [hq])) hsub
        exact runEvents_cons_ok_err sel handlers flows p _ _ _ _ _ hroute hrest

/-- C9: in mapping form, an incoming event whose selector key has no entry
in the mapping is fatal: however many known-key events preceded it, routing
reaches that event and throws `Unknown key[...]` naming the offending key;
the run terminates with that error and the events after it are never
processed (the result does not depend on `post`). -/
theorem splitMerge_unknown_key (sel : Event → String)
    (table : List (String × HandlerB)) (pre : List Event) (e : Event)
    (post : List Event)
    (hpre : ∀ p ∈ pre, (mappingHandlers table (sel p)).isSome)
    (hmiss : mappingHandlers table (sel e) = none) :
    runEvents sel (mappingHandlers table) [] (pre ++ e :: post) =
      .error ("Unknown key[" ++ sel e ++ "].") :=
  runEvents_unknown sel (mappingHandlers table) e post hmiss pre []
    hpre (by simp)

/-- C9 witness: a two-key stream against a mapping that only knows `A`
terminates with the unknown-key error for `B`. -/
theorem splitMerge_unknown_key_witness :
    runEvents (fun e => jstring e.deviceId) (mappingHandlers [("A", idHandler)])
      [] [{ Event.empty with deviceId := .vstr "A" },
          { Event.empty with deviceId := .vstr "B" }] =
      .error "Unknown key[B]." := by
  exact splitMerge_unknown_key (fun e => jstring e.deviceId) [("A", idHandler)]
    [{ Event.empty with deviceId := .vstr "A" }]
    { Event.empty with deviceId := .vstr "B" } []
    (by
      intro p hp
      rw [List.mem_singleton] at hp
      subst hp
      rfl)
    rfl

/-- C1 counterexample: with a `take(1)`-shaped handler, the first event
completes its handler output; the removal empties the flow table and the
router completes the merged output although the upstream is still live (the
upstream has neither completed nor errored at that point). -/
theorem splitMerge_early_completion_counterexample :
    OutSig.completed ∈ smEventSigs (fun e => jstring e.deviceId)
      (fun _ => take1Handler)
      [{ Event.empty with deviceId := .vstr "A" }] := by
  decide

/-- C1 witness: the completion theorem applied to the specification's
scenario — keys A, A, B, A with identity handlers. -/
theorem splitMerge_completion_witness :
    OutSig.completed ∉ smEventSigs (fun e => jstring e.deviceId)
      (fun _ => idHandler)
      [{ Event.empty with deviceId := .vstr "A" },
       { Event.empty with deviceId := .vstr "A" },
       { Event.empty with deviceId := .vstr "B" },
       { Event.empty with deviceId := .vstr "A" }] ∧
    ∃ pre, smFullSigs (fun e => jstring e.deviceId)
      (fun _ => idHandler)
      [{ Event.empty with deviceId := .vstr "A" },
       { Event.empty with deviceId := .vstr "A" },
       { Event.empty with deviceId := .vstr "B" },
       { Event.empty with deviceId := .vstr "A" }] = pre ++ [OutSig.completed] ∧
      OutSig.completed ∉ pre := by
  exact splitMerge_completion (fun e => jstring e.deviceId) (fun _ => idHandler)
    _ (fun k => ⟨rfl, fun s e => rfl⟩)

/-- C4 counterexample: with a `take(1)`-shaped handler and two events with
the same key, the first event's handler output completes and its flow-table
entry is removed, so the second event invokes the handler a second time for
the same key: the invocation list is `[A, A]`, not at most once per key. -/
theorem splitMerge_reinvocation_counterexample :
    smInvocations (fun e => jstring e.deviceId) (fun _ => take1Handler)
      [{ Event.empty with deviceId := .vstr "A" },
       { Event.empty with deviceId := .vstr "A" }] = ["A", "A"] ∧
    ¬ (["A", "A"] : List String).Nodup := by
  constructor
  · decide
  · decide

/-- C4 witness: the at-most-once theorem applied to the scenario keys
A, A, B, A with identity handlers. -/
theorem splitMerge_handler_once_witness :
    (smInvocations (fun e => jstring e.deviceId) (fun _ => idHandler)
      [{ Event.empty with deviceId := .vstr "A" },
       { Event.empty with deviceId := .vstr "A" },
       { Event.empty with deviceId := .vstr "B" },
       { Event.empty with deviceId := .vstr "A" }]).Nodup := by
  exact splitMerge_handler_once (fun e => jstring e.deviceId)
    (fun _ => idHandler) _ (fun k => ⟨rfl, fun s e => rfl⟩)
